import Mathlib

/-!
Verification of the `TaskSpawner` process supervisor
(`src/spawner.util.ts`, execa variant) against its specification.

Strings from the source are modelled as `List Char` where byte-level content
matters (output chunks and lines) and as `String` for process names.
Timestamps (`new Date()`) are modelled as `Nat` parameters supplied by the
caller.  Console printing (`console.log`/`console.error`) is an external side
effect and is not part of the model; captured output and emitted events are.
-/

namespace LineBuf

/-- JavaScript `s.split('\n')` on a character list: the result always has at
least one element, splitting removes the separators, and an empty input yields
`[[]]` just as `''.split('\n')` yields `['']`. -/
def jsSplitNl : List Char → List (List Char)
  | [] => [[]]
  | c :: cs =>
    if c = '\n' then [] :: jsSplitNl cs
    else
      match jsSplitNl cs with
      | [] => [[c]]
      | l :: ls => (c :: l) :: ls

theorem jsSplitNl_ne_nil (s : List Char) : jsSplitNl s ≠ [] := by
  cases s with
  | nil => simp [jsSplitNl]
  | cons c cs =>
    unfold jsSplitNl
    by_cases h : c = '\n'
    · simp [h]
    · simp only [if_neg h]
      cases jsSplitNl cs <;> simp

/-- Last element of a nonempty list of lines, with `[]` as the default; this is
JavaScript `lines.pop() || ''` (the popped last element, with `undefined` or the
empty string collapsing to the empty string). -/
def lastD : List (List Char) → List Char
  | [] => []
  | [l] => l
  | _ :: l :: ls => lastD (l :: ls)

theorem lastD_cons_cons (a b : List Char) (ls : List (List Char)) :
    lastD (a :: b :: ls) = lastD (b :: ls) := rfl

theorem jsSplitNl_cons_nl (cs : List Char) :
    jsSplitNl ('\n' :: cs) = [] :: jsSplitNl cs := by
  simp [jsSplitNl]

theorem jsSplitNl_cons_other (c : Char) (cs : List Char) (l : List Char)
    (ls : List (List Char)) (h : c ≠ '\n') (hr : jsSplitNl cs = l :: ls) :
    jsSplitNl (c :: cs) = (c :: l) :: ls := by
  rw [jsSplitNl, if_neg h, hr]

/-- One `data` callback for one stream of one process
(`setupProcessListeners` data handlers plus `processBufferedOutput`):
the chunk is appended to the stream's pending fragment, the buffer is split on
the line terminator, the final piece (possibly empty) becomes the new fragment,
and every complete line is emitted (and, with `captureOutput`, pushed onto the
record's output array) as `line + '\n'`. -/
def handleData (frag chunk : List Char) : List (List Char) × List Char :=
  let lines := jsSplitNl (frag ++ chunk)
  (lines.dropLast.map (fun l => l ++ ['\n']), lastD lines)

/-- Splitting on the terminator, re-appending a terminator to every complete
line and re-attaching the final fragment reconstructs the buffer. -/
theorem jsSplitNl_reconstruct (buf : List Char) :
    ((jsSplitNl buf).dropLast.map (fun l => l ++ ['\n'])).flatten ++ lastD (jsSplitNl buf)
      = buf := by
  induction buf with
  | nil => rfl
  | cons c cs ih =>
    obtain ⟨l, ls, hr⟩ : ∃ l ls, jsSplitNl cs = l :: ls := by
      cases h : jsSplitNl cs with
      | nil => exact absurd h (jsSplitNl_ne_nil cs)
      | cons a as => exact ⟨a, as, rfl⟩
    by_cases h : c = '\n'
    · subst h
      rw [jsSplitNl_cons_nl, hr]
      rw [hr] at ih
      cases ls with
      | nil =>
        simp only [List.dropLast, List.map, List.flatten, lastD] at ih ⊢
        simpa using ih
      | cons b bs =>
        simp only [List.dropLast, List.map, List.flatten, lastD] at ih ⊢
        simpa using ih
    · rw [jsSplitNl_cons_other c cs l ls h hr]
      rw [hr] at ih
      cases ls with
      | nil =>
        simp only [List.dropLast, List.map, List.flatten, lastD] at ih ⊢
        simpa using ih
      | cons b bs =>
        simp only [List.dropLast, List.map, List.flatten, lastD, List.cons_append,
          List.append_assoc] at ih ⊢
        rw [← ih]

theorem handleData_reconstruct (frag chunk : List Char) :
    (handleData frag chunk).1.flatten ++ (handleData frag chunk).2 = frag ++ chunk :=
  jsSplitNl_reconstruct (frag ++ chunk)

/-- Deliver a sequence of chunks to one stream: fold `handleData` over the
chunks starting from fragment `frag`, collecting the emitted lines in order and
the final pending fragment. -/
def runChunks (frag : List Char) : List (List Char) → List (List Char) × List Char
  | [] => ([], frag)
  | chunk :: rest =>
    let p := handleData frag chunk
    let q := runChunks p.2 rest
    (p.1 ++ q.1, q.2)

theorem runChunks_reconstruct (chunks : List (List Char)) :
    ∀ frag, (runChunks frag chunks).1.flatten ++ (runChunks frag chunks).2
      = frag ++ chunks.flatten := by
  induction chunks with
  | nil => intro frag; simp [runChunks]
  | cons chunk rest ih =>
    intro frag
    simp only [runChunks, List.flatten_cons, List.flatten_append]
    rw [List.append_assoc, ih (handleData frag chunk).2, ← List.append_assoc,
      handleData_reconstruct, List.append_assoc]

/-- Flush at process exit (the exit handler's buffered-output block): a
non-empty pending fragment is pushed as one final line, verbatim, with no
terminator added; an empty fragment (JavaScript falsy `''`) is dropped. -/
def flushAtExit (frag : List Char) : List (List Char) :=
  if frag = [] then [] else [frag]

/-- All captured (equivalently, emitted) lines for one stream of a process run
in piped mode with output capture on: the lines produced while chunks arrive,
followed by the flushed final fragment. -/
def capturedLines (chunks : List (List Char)) : List (List Char) :=
  (runChunks [] chunks).1 ++ flushAtExit (runChunks [] chunks).2

/-- C1 (confirmed). Line-reassembly round-trip: for every sequence of byte
chunks delivered to one stream in piped mode with capture enabled, the
concatenation of all captured/emitted lines, including the flushed final
fragment, equals the concatenation of the input chunks exactly — no byte loss,
no duplication, in order — whether or not the stream ends with a terminator. -/
theorem captured_roundTrip (chunks : List (List Char)) :
    (capturedLines chunks).flatten = chunks.flatten := by
  have h := runChunks_reconstruct chunks []
  simp only [List.nil_append] at h
  unfold capturedLines flushAtExit
  by_cases hf : (runChunks [] chunks).2 = []
  · rw [if_pos hf]
    rw [hf, List.append_nil] at h
    simpa using h
  · rw [if_neg hf]
    rw [List.flatten_append, ← h]
    simp

/-- C8 (confirmed). Captured-output scenarios with `captureOutput = true` and
`streamToConsole = false`: a process writing `"hello"` then a newline (whether
the two writes arrive as two chunks or one) captures exactly one line, the line
`"hello"` with its terminator (`processBufferedOutput` stores `line + '\n'`);
a process writing `"a"` then `"b"` with no trailing newline captures a single
flushed line `"ab"`. -/
theorem captured_scenarios :
    capturedLines [['h','e','l','l','o'], ['\n']] = [['h','e','l','l','o','\n']]
  ∧ capturedLines [['h','e','l','l','o','\n']] = [['h','e','l','l','o','\n']]
  ∧ capturedLines [['a'], ['b']] = [['a','b']] := by
  refine ⟨by decide, by decide, by decide⟩

end LineBuf

namespace Spawn

/-- Process record (`SpawnedProcess` interface): the OS `process` handle itself
is external and carries no model-relevant state beyond its events, so it is not
a field; captured output, running flag, exit code and the two timestamps are.
Field `stdoutCap`/`stderrCap` are `output.stdout`/`output.stderr`. -/
structure SpawnedProcess where
  name : String
  stdoutCap : List (List Char)
  stderrCap : List (List Char)
  isRunning : Bool
  exitCode : Option Int
  startTime : Nat
  endTime : Option Nat
deriving DecidableEq

/-- Spawn options (`SpawnerOptions`); `logLabel` models the source's
`logPrefix` field (renamed here), `none` standing for `undefined`. -/
structure SpawnerOptions where
  streamLogs : Bool
  prefixLogs : Bool
  logLabel : Option String
  captureOutput : Bool
deriving DecidableEq

/-- JavaScript `Map.get`: first (only, since keys are unique) binding wins. -/
def mapGet {α : Type} (m : List (String × α)) (k : String) : Option α :=
  match m with
  | [] => none
  | p :: rest => if p.1 = k then some p.2 else mapGet rest k

/-- JavaScript `Map.set`: replace in place if the key is present, else append
at the end (insertion order preserved). -/
def mapSet {α : Type} (m : List (String × α)) (k : String) (v : α) :
    List (String × α) :=
  match m with
  | [] => [(k, v)]
  | p :: rest => if p.1 = k then (k, v) :: rest else p :: mapSet rest k v

/-- JavaScript `Map.delete`: remove the binding for the key, if any. -/
def mapDelete {α : Type} (m : List (String × α)) (k : String) :
    List (String × α) :=
  match m with
  | [] => []
  | p :: rest => if p.1 = k then rest else p :: mapDelete rest k

/-- Mutation of the record object registered under `k` (the listeners close
over the record; while it is registered this is the map entry). -/
def updateRecord (m : List (String × SpawnedProcess)) (k : String)
    (f : SpawnedProcess → SpawnedProcess) : List (String × SpawnedProcess) :=
  m.map (fun p => if p.1 = k then (p.1, f p.2) else p)

/-- Events emitted through the spawner's `EventEmitter` interface. -/
inductive SpawnerEvent
  | spawnEv (name : String)
  | stdoutEv (name : String) (data : List Char)
  | stderrEv (name : String) (data : List Char)
  | exitEv (name : String) (code : Option Int)
  | errorEv (name : String)
deriving DecidableEq

/-- Spawner state (`TaskSpawner` fields): the name-keyed registry, the
monotonic counter, and the per-process pending-output buffers. -/
structure TaskSpawner where
  processes : List (String × SpawnedProcess)
  processCounter : Nat
  outputBuffers : List (String × (List Char × List Char))
deriving DecidableEq

def emptySpawner : TaskSpawner := TaskSpawner.mk [] 0 []

/-- Name resolution in `spawn`:
`logPrefix || command + '_' + (++this.processCounter)`.  The JavaScript `||`
short-circuits, so the counter is incremented only when the label is absent
(`undefined`) or empty (falsy `''`).  Returns the name and the new counter. -/
def resolveName (logLabel : Option String) (command : String) (counter : Nat) :
    String × Nat :=
  match logLabel with
  | some p =>
      if p = "" then (command ++ "_" ++ toString (counter + 1), counter + 1)
      else (p, counter)
  | none => (command ++ "_" ++ toString (counter + 1), counter + 1)

/-- `TaskSpawner.spawn`: resolve the name, build the record, launch via
`execa`, mark it running, register it, initialise its output buffers, then emit
the spawn event.  Launching a nonexistent executable does not throw here:
`execa`/`child_process.spawn` report such failures asynchronously through the
child's `error` event, so `spawn` always registers and returns the record —
which is why this embedding is total.  `now` stands for `new Date()`. -/
def spawn (s : TaskSpawner) (command : String) (opts : SpawnerOptions)
    (now : Nat) : TaskSpawner × SpawnedProcess × List SpawnerEvent :=
  let pc := resolveName opts.logLabel command s.processCounter
  let rec0 : SpawnedProcess := SpawnedProcess.mk pc.1 [] [] true none now none
  let procs := mapSet s.processes pc.1 rec0
  let bufs := mapSet s.outputBuffers pc.1 ([], [])
  (TaskSpawner.mk procs pc.2 bufs, rec0, [SpawnerEvent.spawnEv pc.1])

/-- One task of `spawnMultiple`; option overrides beyond the name are not
exercised by the claims and are omitted. -/
structure Task where
  name : String
  command : String
deriving DecidableEq

/-- Launch phase of `spawnMultiple`: each task is spawned with
`logPrefix: task.name`; the async callbacks contain no suspension before
registration completes, so the spawns take effect in task order.  Returns the
final spawner state and the `(task.name, record)` results in task order. -/
def spawnAll (s : TaskSpawner) (tasks : List Task) (now : Nat) :
    TaskSpawner × List (String × SpawnedProcess) :=
  match tasks with
  | [] => (s, [])
  | t :: rest =>
    let r := spawn s t.command (SpawnerOptions.mk true true (some t.name) false) now
    let q := spawnAll r.1 rest now
    (q.1, (t.name, r.2.1) :: q.2)

/-- `TaskSpawner.spawnMultiple`: launch all tasks, then build the returned
name → record map by `processMap.set(name, process)` in result order. -/
def spawnMultiple (s : TaskSpawner) (tasks : List Task) (now : Nat) :
    TaskSpawner × List (String × SpawnedProcess) :=
  let p := spawnAll s tasks now
  (p.1, p.2.foldl (fun m r => mapSet m r.1 r.2) [])

/-- Record writes of the child's `exit` listener:
`isRunning = false; exitCode = code; endTime = new Date()`. -/
def recordExit (r : SpawnedProcess) (code : Option Int) (now : Nat) :
    SpawnedProcess :=
  SpawnedProcess.mk r.name r.stdoutCap r.stderrCap false code r.startTime (some now)

/-- Record writes of the child's `error` (and `uncaughtException`) listener:
`isRunning = false; endTime = new Date()` — the exit code is not touched. -/
def recordError (r : SpawnedProcess) (now : Nat) : SpawnedProcess :=
  SpawnedProcess.mk r.name r.stdoutCap r.stderrCap false r.exitCode r.startTime
    (some now)

/-- Push one flushed line onto a record's captured stdout. -/
def recordPushStdout (r : SpawnedProcess) (l : List Char) : SpawnedProcess :=
  SpawnedProcess.mk r.name (r.stdoutCap ++ [l]) r.stderrCap r.isRunning
    r.exitCode r.startTime r.endTime

/-- Push one flushed line onto a record's captured stderr. -/
def recordPushStderr (r : SpawnedProcess) (l : List Char) : SpawnedProcess :=
  SpawnedProcess.mk r.name r.stdoutCap (r.stderrCap ++ [l]) r.isRunning
    r.exitCode r.startTime r.endTime

/-- Flush phase of the exit listener (piped mode only): a non-empty pending
stdout fragment is captured (when `captureOutput`) and emitted, then likewise
for stderr, then the buffer entry is deleted. -/
def flushPhase (s : TaskSpawner) (name : String) (captureOutput pipeMode : Bool) :
    TaskSpawner × List SpawnerEvent :=
  if pipeMode then
    match mapGet s.outputBuffers name with
    | none => (s, [])
    | some buf =>
      let procs1 := if buf.1 ≠ [] ∧ captureOutput then
          updateRecord s.processes name (fun r => recordPushStdout r buf.1)
        else s.processes
      let ev1 : List SpawnerEvent :=
        if buf.1 ≠ [] then [SpawnerEvent.stdoutEv name buf.1] else []
      let procs2 := if buf.2 ≠ [] ∧ captureOutput then
          updateRecord procs1 name (fun r => recordPushStderr r buf.2)
        else procs1
      let ev2 : List SpawnerEvent :=
        if buf.2 ≠ [] then [SpawnerEvent.stderrEv name buf.2] else []
      (TaskSpawner.mk procs2 s.processCounter (mapDelete s.outputBuffers name),
        ev1 ++ ev2)
  else (s, [])

/-- The child's `exit` listener as set up by `setupProcessListeners`: flush the
pending fragments (piped mode), mark the record terminal — `isRunning = false`,
`exitCode = code`, `endTime` set — and only then emit the `exit` event.
`EventEmitter.emit` is synchronous and mutates nothing, so the returned state
is exactly the state every subscriber of the `exit` event observes; the event
list preserves emission order, the exit event last. -/
def handleExit (s : TaskSpawner) (name : String) (captureOutput pipeMode : Bool)
    (code : Option Int) (now : Nat) : TaskSpawner × List SpawnerEvent :=
  let fl := flushPhase s name captureOutput pipeMode
  let s2 := TaskSpawner.mk
    (updateRecord fl.1.processes name (fun r => recordExit r code now))
    fl.1.processCounter fl.1.outputBuffers
  (s2, fl.2 ++ [SpawnerEvent.exitEv name code])

/-- The child's `error` listener: mark the record not running with `endTime`
set (the exit code stays as it was), then emit the `error` event. -/
def handleError (s : TaskSpawner) (name : String) (now : Nat) :
    TaskSpawner × List SpawnerEvent :=
  (TaskSpawner.mk (updateRecord s.processes name (fun r => recordError r now))
    s.processCounter s.outputBuffers,
   [SpawnerEvent.errorEv name])

end Spawn

namespace Spawn

theorem mapGet_mapSet_self {α : Type} (m : List (String × α)) (k : String)
    (v : α) : mapGet (mapSet m k v) k = some v := by
  induction m with
  | nil => simp [mapGet, mapSet]
  | cons p rest ih =>
    by_cases h : p.1 = k
    · simp [mapGet, mapSet, h]
    · simp [mapGet, mapSet, h, ih]

theorem mapGet_updateRecord_self (m : List (String × SpawnedProcess))
    (k : String) (f : SpawnedProcess → SpawnedProcess) :
    mapGet (updateRecord m k f) k = (mapGet m k).map f := by
  induction m with
  | nil => simp [mapGet, updateRecord]
  | cons p rest ih =>
    by_cases h : p.1 = k
    · simp [mapGet, updateRecord, h]
    · simp only [updateRecord, List.map] at ih ⊢
      simp [mapGet, h, ih]

theorem getLast?_snoc {α : Type} (l : List α) (a : α) :
    (l ++ [a]).getLast? = some a := by
  simp

/-- Registration survives the flush phase: the flush only pushes captured
lines onto the record, so the record stays registered under its name. -/
theorem flushPhase_mapGet_isSome (s : TaskSpawner) (name : String)
    (captureOutput pipeMode : Bool) (r : SpawnedProcess)
    (h : mapGet s.processes name = some r) :
    ∃ r1, mapGet (flushPhase s name captureOutput pipeMode).1.processes name
      = some r1 := by
  have key : ∀ (m : List (String × SpawnedProcess))
      (f : SpawnedProcess → SpawnedProcess) (x : SpawnedProcess),
      mapGet m name = some x → mapGet (updateRecord m name f) name = some (f x) := by
    intro m f x hx
    rw [mapGet_updateRecord_self, hx]
    rfl
  unfold flushPhase
  by_cases hp : pipeMode
  · simp only [if_pos hp]
    cases hb : mapGet s.outputBuffers name with
    | none => exact ⟨r, h⟩
    | some buf =>
      dsimp only
      split_ifs
      all_goals first
        | exact ⟨_, key _ _ _ (key _ _ _ h)⟩
        | exact ⟨_, key _ _ _ h⟩
        | exact ⟨r, h⟩
  · simp only [if_neg hp]
    exact ⟨r, h⟩

end Spawn

/-- C2 counterexample. Spawning a nonexistent executable path still registers a
Record: `execa` reports the launch rejection asynchronously through the error
event rather than by throwing, `Spawn.spawn` is therefore total (no failure
outcome), and afterwards the Registry does contain an entry under the derived
name — the claim says it contains none. -/
theorem spawn_bad_exe_registers :
    (Spawn.mapGet (Spawn.spawn Spawn.emptySpawner "/no/such/bin"
        (Spawn.SpawnerOptions.mk true true none false) 0).1.processes
      "/no/such/bin_1").isSome = true := by
  decide

/-- C2 amended. When the OS rejects the launch, the `spawn` call itself still
resolves and registers the Record; the failure surfaces asynchronously as an
`error` event whose handler marks the Record not running with `exitCode` still
null — afterwards the Registry contains that entry (terminal, code-less). -/
theorem spawn_then_error_keeps_record (s : Spawn.TaskSpawner) (command : String)
    (opts : Spawn.SpawnerOptions) (now1 now2 : Nat) :
    Spawn.mapGet (Spawn.handleError (Spawn.spawn s command opts now1).1
        (Spawn.spawn s command opts now1).2.1.name now2).1.processes
        (Spawn.spawn s command opts now1).2.1.name
      = some (Spawn.recordError (Spawn.spawn s command opts now1).2.1 now2)
  ∧ (Spawn.recordError (Spawn.spawn s command opts now1).2.1 now2).isRunning = false
  ∧ (Spawn.recordError (Spawn.spawn s command opts now1).2.1 now2).exitCode = none := by
  refine ⟨?_, rfl, rfl⟩
  simp only [Spawn.spawn, Spawn.handleError]
  rw [Spawn.mapGet_updateRecord_self, Spawn.mapGet_mapSet_self]
  rfl

/-- C3 (confirmed). The exit listener updates the Record to terminal —
`isRunning` false, `exitCode` and `endTime` stored — strictly before it
publishes the `exit` event: the state returned by `handleExit`, which is the
state every synchronous subscriber of the event observes, already holds the
terminal record, and the exit event is the last event the handler emits. -/
theorem exit_terminal_before_event (s : Spawn.TaskSpawner) (name : String)
    (captureOutput pipeMode : Bool) (code : Option Int) (now : Nat)
    (r : Spawn.SpawnedProcess) (h : Spawn.mapGet s.processes name = some r) :
    ∃ r', Spawn.mapGet
        (Spawn.handleExit s name captureOutput pipeMode code now).1.processes name
        = some r'
      ∧ r'.isRunning = false ∧ r'.exitCode = code ∧ r'.endTime = some now
      ∧ (Spawn.handleExit s name captureOutput pipeMode code now).2.getLast?
          = some (Spawn.SpawnerEvent.exitEv name code) := by
  obtain ⟨r1, h1⟩ := Spawn.flushPhase_mapGet_isSome s name captureOutput pipeMode r h
  refine ⟨Spawn.recordExit r1 code now, ?_, rfl, rfl, rfl, ?_⟩
  · unfold Spawn.handleExit
    rw [Spawn.mapGet_updateRecord_self, h1]
    rfl
  · unfold Spawn.handleExit
    exact Spawn.getLast?_snoc _ _

def sampleRunning : Spawn.SpawnedProcess :=
  Spawn.SpawnedProcess.mk "p" [] [] true none 0 none

def sampleSpawner : Spawn.TaskSpawner :=
  Spawn.TaskSpawner.mk [("p", sampleRunning)] 1 [("p", ([], []))]

theorem exit_terminal_before_event_witness :
    Spawn.mapGet sampleSpawner.processes "p" = some sampleRunning
  ∧ ∃ r', Spawn.mapGet
        (Spawn.handleExit sampleSpawner "p" true true (some 0) 5).1.processes "p"
        = some r'
      ∧ r'.isRunning = false ∧ r'.exitCode = some 0 ∧ r'.endTime = some 5
      ∧ (Spawn.handleExit sampleSpawner "p" true true (some 0) 5).2.getLast?
          = some (Spawn.SpawnerEvent.exitEv "p" (some 0)) :=
  ⟨by decide,
   exit_terminal_before_event sampleSpawner "p" true true (some 0) 5 sampleRunning
     (by decide)⟩

namespace Spawn

/-- Outcome of one `waitForProcess` call at the moment it runs: the name is
unknown (the call throws `Process not found`), the record is already terminal
(the promise resolves immediately with the stored exit code, attaching
nothing), or the record is running (an `exit` listener is attached and the
call stays pending). -/
inductive WaitOutcome
  | notFound
  | immediate (code : Option Int)
  | pending
deriving DecidableEq

/-- One `waitForProcess(name)` call.  `w` is the list of resolver callbacks
already attached to the child process's `exit` event by earlier pending waits
(each identified by a caller id); a pending call appends its own resolver and
nothing else — it performs no OS-level wait of its own. -/
def waitForCall (s : TaskSpawner) (w : List Nat) (name : String) (wid : Nat) :
    WaitOutcome × List Nat :=
  match mapGet s.processes name with
  | none => (WaitOutcome.notFound, w)
  | some r =>
    if r.isRunning = false then (WaitOutcome.immediate r.exitCode, w)
    else (WaitOutcome.pending, w ++ [wid])

/-- Register a sequence of concurrent `waitForProcess` calls (the spawner state
is not changed by a wait, so all calls observe the same `s`), collecting each
call's outcome and threading the listener list. -/
def registerOutcomes (s : TaskSpawner) (name : String) (w : List Nat) :
    List Nat → List WaitOutcome × List Nat
  | [] => ([], w)
  | wid :: rest =>
    let p := waitForCall s w name wid
    let q := registerOutcomes s name p.2 rest
    (p.1 :: q.1, q.2)

/-- The single OS-level termination: Node waits on the child once and emits the
`exit` event once; the emitter calls every attached listener, in attachment
order, with the same exit code.  The result pairs each resolved waiter with the
code it receives. -/
def fireExit (w : List Nat) (code : Option Int) : List (Nat × Option Int) :=
  w.map (fun wid => (wid, code))

theorem registerOutcomes_running (s : TaskSpawner) (name : String)
    (r : SpawnedProcess) (h : mapGet s.processes name = some r)
    (hr : r.isRunning = true) (ids : List Nat) :
    ∀ w, registerOutcomes s name w ids
      = (ids.map (fun _ => WaitOutcome.pending), w ++ ids) := by
  induction ids with
  | nil => intro w; simp [registerOutcomes]
  | cons wid rest ih =>
    intro w
    have hr' : ¬ r.isRunning = false := by rw [hr]; simp
    simp only [registerOutcomes, waitForCall, h, if_neg hr']
    rw [ih (w ++ [wid])]
    simp

end Spawn

/-- C4 (confirmed). Any number of concurrent `waitFor` calls on the name of a
still-running registered process all go pending (none errors, none resolves
early), each attaches exactly one resolver to the child's exit event, and the
single underlying termination event resolves every one of them with the same
exit code, each exactly once — no call performs a second OS-level wait, the one
`fireExit` is the one OS exit notification. -/
theorem waiters_all_resolve_once (s : Spawn.TaskSpawner) (name : String)
    (r : Spawn.SpawnedProcess) (ids : List Nat) (code : Option Int)
    (h : Spawn.mapGet s.processes name = some r) (hr : r.isRunning = true) :
    (Spawn.registerOutcomes s name [] ids).1
        = ids.map (fun _ => Spawn.WaitOutcome.pending)
  ∧ (Spawn.registerOutcomes s name [] ids).2 = ids
  ∧ Spawn.fireExit (Spawn.registerOutcomes s name [] ids).2 code
        = ids.map (fun wid => (wid, code)) := by
  have hreg := Spawn.registerOutcomes_running s name r h hr ids []
  rw [List.nil_append] at hreg
  refine ⟨by rw [hreg], by rw [hreg], ?_⟩
  rw [hreg]
  rfl

theorem waiters_all_resolve_once_witness :
    (Spawn.mapGet sampleSpawner.processes "p" = some sampleRunning
      ∧ sampleRunning.isRunning = true)
  ∧ ((Spawn.registerOutcomes sampleSpawner "p" [] [0, 1, 2]).1
        = [0, 1, 2].map (fun _ => Spawn.WaitOutcome.pending)
    ∧ (Spawn.registerOutcomes sampleSpawner "p" [] [0, 1, 2]).2 = [0, 1, 2]
    ∧ Spawn.fireExit (Spawn.registerOutcomes sampleSpawner "p" [] [0, 1, 2]).2 (some 7)
        = [0, 1, 2].map (fun wid => (wid, some 7))) :=
  ⟨⟨by decide, by decide⟩,
   waiters_all_resolve_once sampleSpawner "p" sampleRunning [0, 1, 2] (some 7)
     (by decide) (by decide)⟩

/-- C5 (confirmed). A `waitFor` call on a registered process whose Record is
already terminal resolves immediately with the stored `exitCode` and leaves the
listener list untouched — no new subscription is attached to the finished
process, and the call does not stay pending (so it cannot hang). -/
theorem waitFor_terminal_immediate (s : Spawn.TaskSpawner) (w : List Nat)
    (name : String) (wid : Nat) (r : Spawn.SpawnedProcess)
    (h : Spawn.mapGet s.processes name = some r) (hr : r.isRunning = false) :
    Spawn.waitForCall s w name wid = (Spawn.WaitOutcome.immediate r.exitCode, w) := by
  simp [Spawn.waitForCall, h, hr]

def sampleDone : Spawn.SpawnedProcess :=
  Spawn.SpawnedProcess.mk "q" [] [] false (some 3) 0 (some 1)

def sampleSpawnerDone : Spawn.TaskSpawner :=
  Spawn.TaskSpawner.mk [("q", sampleDone)] 1 []

theorem waitFor_terminal_immediate_witness :
    (Spawn.mapGet sampleSpawnerDone.processes "q" = some sampleDone
      ∧ sampleDone.isRunning = false)
  ∧ Spawn.waitForCall sampleSpawnerDone [5] "q" 9
      = (Spawn.WaitOutcome.immediate sampleDone.exitCode, [5]) :=
  ⟨⟨by decide, by decide⟩,
   waitFor_terminal_immediate sampleSpawnerDone [5] "q" 9 sampleDone
     (by decide) (by decide)⟩

/-- C6 (confirmed). A `waitFor` call fails — and its only failure outcome is
the not-found error, the single `throw` in `waitForProcess` — exactly when the
name is unknown to the Registry. -/
theorem waitFor_notFound_iff (s : Spawn.TaskSpawner) (w : List Nat)
    (name : String) (wid : Nat) :
    (Spawn.waitForCall s w name wid).1 = Spawn.WaitOutcome.notFound
      ↔ Spawn.mapGet s.processes name = none := by
  unfold Spawn.waitForCall
  cases h : Spawn.mapGet s.processes name with
  | none => simp
  | some r => by_cases hr : r.isRunning = false <;> simp [hr]

/-- C7 counterexample. `spawnMultiple` with two tasks using the identical
command — and, as its interface permits, the same task name, which `spawn`
receives as `logPrefix` and uses verbatim, bypassing the counter — leaves ONE
record under ONE name: the second registration silently overwrites the first,
so the Registry does not hold two distinct Records under two distinct names. -/
theorem spawnMultiple_overwrites :
    (Spawn.spawnMultiple Spawn.emptySpawner
        [Spawn.Task.mk "dup" "x", Spawn.Task.mk "dup" "x"] 0).1.processes.length = 1
  ∧ (Spawn.spawnMultiple Spawn.emptySpawner
        [Spawn.Task.mk "dup" "x", Spawn.Task.mk "dup" "x"] 0).2.length = 1 := by
  decide

def twoSpawns : Spawn.TaskSpawner :=
  (Spawn.spawn (Spawn.spawn Spawn.emptySpawner "x"
      (Spawn.SpawnerOptions.mk true true none false) 0).1 "x"
    (Spawn.SpawnerOptions.mk true true none false) 1).1

/-- C7 amended. The counter scheme disambiguates only names `spawn` derives
itself: spawning the identical command twice with no explicit label registers
two distinct Records under the distinct names `x_1` and `x_2`; a caller-given
duplicate name (`logPrefix`, or `spawnMultiple` tasks sharing a `name`) is
used verbatim and silently overwrites the existing Registry entry, though the
Registry, being a map, never exposes two Records under the same name
simultaneously. -/
theorem spawn_counter_disambiguates :
    twoSpawns.processes.length = 2
  ∧ Spawn.mapGet twoSpawns.processes "x_1"
      = some (Spawn.SpawnedProcess.mk "x_1" [] [] true none 0 none)
  ∧ Spawn.mapGet twoSpawns.processes "x_2"
      = some (Spawn.SpawnedProcess.mk "x_2" [] [] true none 1 none)
  ∧ ("x_1" : String) ≠ "x_2" := by
  decide

namespace Spawn

/-- One firing of one of the three child-process listeners that write record
state: `exit` (writes `isRunning`, `exitCode`, `endTime`), `error` and
`uncaughtException` (each writes `isRunning` and `endTime` but not
`exitCode`). -/
inductive HandlerEvent
  | exitFired (code : Option Int) (now : Nat)
  | errorFired (now : Nat)
  | uncaughtFired (now : Nat)
deriving DecidableEq

/-- The record-object writes the fired listener performs. -/
def applyHandler : HandlerEvent → SpawnedProcess → SpawnedProcess
  | HandlerEvent.exitFired code now, r => recordExit r code now
  | HandlerEvent.errorFired now, r => recordError r now
  | HandlerEvent.uncaughtFired now, r => recordError r now

/-- Run an interleaving (a sequence) of listener firings over a record. -/
def runHandlers (r : SpawnedProcess) : List HandlerEvent → SpawnedProcess
  | [] => r
  | e :: es => runHandlers (applyHandler e r) es

/-- Number of `endTime = new Date()` assignments a single firing performs:
every one of the three listeners assigns it exactly once. -/
def endTimeWritesOf : HandlerEvent → Nat
  | HandlerEvent.exitFired _ _ => 1
  | HandlerEvent.errorFired _ => 1
  | HandlerEvent.uncaughtFired _ => 1

/-- Number of `exitCode = code` assignments a single firing performs: only the
`exit` listener assigns it. -/
def exitCodeWritesOf : HandlerEvent → Nat
  | HandlerEvent.exitFired _ _ => 1
  | HandlerEvent.errorFired _ => 0
  | HandlerEvent.uncaughtFired _ => 0

def endTimeWrites (es : List HandlerEvent) : Nat := (es.map endTimeWritesOf).sum

def exitCodeWrites (es : List HandlerEvent) : Nat := (es.map exitCodeWritesOf).sum

/-- The specification's lifecycle states (§4.6). -/
inductive LifecycleState
  | spawning
  | running
  | terminated
  | failed
deriving DecidableEq

/-- Lifecycle state read off a record: Running while `isRunning`; a finished
record is Terminated when an exit code was stored and Failed when it finished
through the error path (no code); a record that never obtained a handle is
still Spawning. -/
def specState (r : SpawnedProcess) : LifecycleState :=
  if r.isRunning then LifecycleState.running
  else
    match r.exitCode with
    | some _ => LifecycleState.terminated
    | none =>
      if r.endTime = none then LifecycleState.spawning else LifecycleState.failed

def runningRec : SpawnedProcess := SpawnedProcess.mk "r" [] [] true none 0 none

end Spawn

/-- C9 counterexample. Across arbitrary interleavings of the exit/error
handlers the lifecycle invariant fails on the code: when the error listener
fires (time 5) and the exit listener then also fires (time 7) — both can run
for one child process — the record first reaches Failed, then moves on to
Terminated (Failed is not absorbing, the state sequence is not forward-only),
and `endTime` is assigned twice, observably changing from 5 to 7 (not
write-once). -/
theorem handlers_interleaving_violations :
    Spawn.specState (Spawn.runHandlers Spawn.runningRec
        [Spawn.HandlerEvent.errorFired 5]) = Spawn.LifecycleState.failed
  ∧ Spawn.specState (Spawn.runHandlers Spawn.runningRec
        [Spawn.HandlerEvent.errorFired 5, Spawn.HandlerEvent.exitFired (some 0) 7])
      = Spawn.LifecycleState.terminated
  ∧ (Spawn.runHandlers Spawn.runningRec
        [Spawn.HandlerEvent.errorFired 5]).endTime = some 5
  ∧ (Spawn.runHandlers Spawn.runningRec
        [Spawn.HandlerEvent.errorFired 5, Spawn.HandlerEvent.exitFired (some 0) 7]).endTime
      = some 7
  ∧ Spawn.endTimeWrites
        [Spawn.HandlerEvent.errorFired 5, Spawn.HandlerEvent.exitFired (some 0) 7] = 2 := by
  decide

/-- C9 amended. In the normal lifecycle, where at most one of the
exit/error/uncaughtException listeners fires for a record (the interleaving has
at most one firing), the invariant holds: `endTime` and `exitCode` are each
written at most once and a Running record transitions forward — it stays
Running with no firing, and with one firing it lands in a terminal state
(Terminated, or Failed when no exit code is stored) and no state is revisited;
only when both the error and the exit listener run is `endTime` overwritten
and a Failed record re-transitioned to Terminated. -/
theorem handlers_single_firing_ok (r : Spawn.SpawnedProcess)
    (es : List Spawn.HandlerEvent) (hlen : es.length ≤ 1)
    (hrun : Spawn.specState r = Spawn.LifecycleState.running) :
    Spawn.endTimeWrites es ≤ 1 ∧ Spawn.exitCodeWrites es ≤ 1
  ∧ ((es = [] ∧ Spawn.specState (Spawn.runHandlers r es) = Spawn.LifecycleState.running)
    ∨ (es ≠ []
      ∧ (Spawn.specState (Spawn.runHandlers r es) = Spawn.LifecycleState.terminated
        ∨ Spawn.specState (Spawn.runHandlers r es) = Spawn.LifecycleState.failed))) := by
  cases es with
  | nil =>
    exact ⟨by simp [Spawn.endTimeWrites], by simp [Spawn.exitCodeWrites],
      Or.inl ⟨rfl, hrun⟩⟩
  | cons e tail =>
    have ht : tail = [] := by
      cases tail with
      | nil => rfl
      | cons a b => simp at hlen
    subst ht
    refine ⟨?_, ?_, Or.inr ⟨by simp, ?_⟩⟩
    · cases e <;> simp [Spawn.endTimeWrites, Spawn.endTimeWritesOf]
    · cases e <;> simp [Spawn.exitCodeWrites, Spawn.exitCodeWritesOf]
    · cases e with
      | exitFired code now =>
        cases code with
        | none =>
          right
          simp [Spawn.runHandlers, Spawn.applyHandler, Spawn.recordExit,
            Spawn.specState]
        | some c =>
          left
          simp [Spawn.runHandlers, Spawn.applyHandler, Spawn.recordExit,
            Spawn.specState]
      | errorFired now =>
        cases hc : r.exitCode with
        | none =>
          right
          simp [Spawn.runHandlers, Spawn.applyHandler, Spawn.recordError,
            Spawn.specState, hc]
        | some c =>
          left
          simp [Spawn.runHandlers, Spawn.applyHandler, Spawn.recordError,
            Spawn.specState, hc]
      | uncaughtFired now =>
        cases hc : r.exitCode with
        | none =>
          right
          simp [Spawn.runHandlers, Spawn.applyHandler, Spawn.recordError,
            Spawn.specState, hc]
        | some c =>
          left
          simp [Spawn.runHandlers, Spawn.applyHandler, Spawn.recordError,
            Spawn.specState, hc]

theorem handlers_single_firing_ok_witness :
    (([Spawn.HandlerEvent.exitFired (some 0) 3].length ≤ 1)
      ∧ Spawn.specState Spawn.runningRec = Spawn.LifecycleState.running)
  ∧ (Spawn.endTimeWrites [Spawn.HandlerEvent.exitFired (some 0) 3] ≤ 1
    ∧ Spawn.exitCodeWrites [Spawn.HandlerEvent.exitFired (some 0) 3] ≤ 1
    ∧ (([Spawn.HandlerEvent.exitFired (some 0) 3]
          = ([] : List Spawn.HandlerEvent)
        ∧ Spawn.specState (Spawn.runHandlers Spawn.runningRec
            [Spawn.HandlerEvent.exitFired (some 0) 3])
          = Spawn.LifecycleState.running)
      ∨ ([Spawn.HandlerEvent.exitFired (some 0) 3] ≠ ([] : List Spawn.HandlerEvent)
        ∧ (Spawn.specState (Spawn.runHandlers Spawn.runningRec
              [Spawn.HandlerEvent.exitFired (some 0) 3])
            = Spawn.LifecycleState.terminated
          ∨ Spawn.specState (Spawn.runHandlers Spawn.runningRec
              [Spawn.HandlerEvent.exitFired (some 0) 3])
            = Spawn.LifecycleState.failed)))) :=
  ⟨⟨by decide, by decide⟩,
   handlers_single_firing_ok Spawn.runningRec
     [Spawn.HandlerEvent.exitFired (some 0) 3] (by decide) (by decide)⟩

namespace Alias

/-- For the aliasing claim the JavaScript object graph matters, so records are
remodelled with an explicit reference: `outputRef` is the identity of the
record's `output` object (its `{stdout, stderr}` arrays), an index into the
spawner's object store. -/
structure RecordH where
  name : String
  outputRef : Nat
deriving DecidableEq

/-- The `output` object of a record: its two captured-line arrays. -/
structure OutputObj where
  stdoutArr : List (List Char)
  stderrArr : List (List Char)
deriving DecidableEq

/-- Spawner with the registry and the store of live `output` objects. -/
structure SpawnerH where
  processesH : List (String × RecordH)
  heap : List OutputObj
deriving DecidableEq

/-- `TaskSpawner.getProcessOutput`: `this.processes.get(name)?.output || null` —
the reference to the record's own, live `output` object (always truthy, so the
`|| null` collapses only the missing-record case), not a copy of the arrays. -/
def getProcessOutput (s : SpawnerH) (name : String) : Option Nat :=
  (Spawn.mapGet s.processesH name).map RecordH.outputRef

/-- `TaskSpawner.getAllProcesses`: `new Map(this.processes)` — a fresh map
object holding the same (name, record-reference) entries; the spawner's own
map is left untouched by anything done to the copy. -/
def getAllProcesses (s : SpawnerH) : List (String × RecordH) :=
  s.processesH

/-- A caller-side `arr.push(line)` performed through a reference to an
`output` object: mutates the stored object in place (all aliases observe it);
the registry itself is untouched. -/
def heapPushStdout (s : SpawnerH) (ref : Nat) (line : List Char) : SpawnerH :=
  match s.heap.get? ref with
  | none => s
  | some obj =>
    SpawnerH.mk s.processesH
      (s.heap.set ref (OutputObj.mk (obj.stdoutArr ++ [line]) obj.stderrArr))

/-- Read a record's stored captured stdout through the registry. -/
def recordStdout (s : SpawnerH) (name : String) : Option (List (List Char)) :=
  match Spawn.mapGet s.processesH name with
  | none => none
  | some r => (s.heap.get? r.outputRef).map OutputObj.stdoutArr

end Alias

/-- C10 (confirmed). `getProcessOutput` hands out the very reference stored in
the Record — not a defensive copy — so pushing a line through the returned
reference changes the Record's stored captured stdout (from `a` to
`a ++ [line]`) while leaving the registry entries untouched; `getAllProcesses`,
by contrast, returns a fresh map object that merely holds the same entries as
the internal one. -/
theorem getProcessOutput_aliases (s : Alias.SpawnerH) (name : String)
    (ref : Nat) (line : List Char) (a : List (List Char))
    (h : Alias.getProcessOutput s name = some ref)
    (ha : Alias.recordStdout s name = some a) :
    Alias.recordStdout (Alias.heapPushStdout s ref line) name = some (a ++ [line])
  ∧ (Alias.heapPushStdout s ref line).processesH = s.processesH
  ∧ Alias.getAllProcesses s = s.processesH := by
  obtain ⟨r, hm, href⟩ : ∃ r, Spawn.mapGet s.processesH name = some r
      ∧ r.outputRef = ref := by
    unfold Alias.getProcessOutput at h
    cases hm : Spawn.mapGet s.processesH name with
    | none => rw [hm] at h; exact absurd h (by simp)
    | some r =>
      rw [hm] at h
      exact ⟨r, rfl, by simpa using h⟩
  obtain ⟨obj, hobj, hstd⟩ : ∃ obj, s.heap.get? ref = some obj
      ∧ obj.stdoutArr = a := by
    unfold Alias.recordStdout at ha
    rw [hm] at ha
    dsimp only at ha
    rw [href] at ha
    cases hobj : s.heap.get? ref with
    | none => rw [hobj] at ha; exact absurd ha (by simp)
    | some obj =>
      rw [hobj] at ha
      exact ⟨obj, rfl, by simpa using ha⟩
  have hlt : ref < s.heap.length := by
    by_contra hge
    rw [List.get?_eq_none.mpr (Nat.le_of_not_lt hge)] at hobj
    exact absurd hobj (by simp)
  refine ⟨?_, ?_, rfl⟩
  · unfold Alias.heapPushStdout
    rw [hobj]
    unfold Alias.recordStdout
    dsimp only
    rw [hm]
    dsimp only
    rw [href, List.get?_set_eq_of_lt _ hlt]
    simp [hstd]
  · unfold Alias.heapPushStdout
    rw [hobj]

def sampleSpawnerH : Alias.SpawnerH :=
  Alias.SpawnerH.mk [("p", Alias.RecordH.mk "p" 0)]
    [Alias.OutputObj.mk [['h', 'i', '\n']] []]

theorem getProcessOutput_aliases_witness :
    (Alias.getProcessOutput sampleSpawnerH "p" = some 0
      ∧ Alias.recordStdout sampleSpawnerH "p" = some [['h', 'i', '\n']])
  ∧ (Alias.recordStdout (Alias.heapPushStdout sampleSpawnerH 0 ['x']) "p"
        = some ([['h', 'i', '\n']] ++ [['x']])
    ∧ (Alias.heapPushStdout sampleSpawnerH 0 ['x']).processesH
        = sampleSpawnerH.processesH
    ∧ Alias.getAllProcesses sampleSpawnerH = sampleSpawnerH.processesH) :=
  ⟨⟨by decide, by decide⟩,
   getProcessOutput_aliases sampleSpawnerH "p" 0 ['x'] [['h', 'i', '\n']]
     (by decide) (by decide)⟩
